import Mathlib

/-!
Verification of the platformio-api library synchronization pipeline
(`crawler.py`, `maintenance.py`, `util.py`, `vcsclient.py`) against its
natural-language specification.  Python functions are shallowly embedded as
Lean functions: timestamps are integer seconds, database rows are structures,
raised exceptions are `Option`/sum results, and the relational catalog is a
list of rows threaded through each operation.
-/

namespace PioAPI

/-! ## Sync scheduler: `process_pending_libs.get_free_lib_id` (maintenance.py) -/

/-- The loop of `get_free_lib_id`: iterates over the library ids in ascending
order (`query ... order_by(Libs.id.asc())`), incrementing `free_id` once per
row, and breaks as soon as the current id jumps past the counter.  The pair
returned is the final `(lib_id, free_id)` of the Python locals. -/
def getFreeLibIdLoop : List Nat → Nat → Nat → Nat × Nat
  | [], libId, freeId => (libId, freeId)
  | x :: rest, _, freeId =>
      if x > freeId + 1 then (x, freeId + 1)
      else getFreeLibIdLoop rest x (freeId + 1)

/-- `process_pending_libs.get_free_lib_id` (maintenance.py): after the loop,
when `lib_id == free_id` the counter is bumped once more (the scanned prefix
was contiguous), and `free_id` is returned. -/
def get_free_lib_id (ids : List Nat) : Nat :=
  let r := getFreeLibIdLoop ids 0 0
  if r.1 = r.2 then r.2 + 1 else r.2

/-- Result of `get_free_lib_id` written without the loop-local state, for use
in the specification below. -/
def getFreeLibIdFrom (l : List Nat) (k : Nat) : Nat :=
  let r := getFreeLibIdLoop l k k
  if r.1 = r.2 then r.2 + 1 else r.2

theorem get_free_lib_id_eq_from (ids : List Nat) :
    get_free_lib_id ids = getFreeLibIdFrom ids 0 := rfl

theorem getFreeLibIdFrom_spec (l : List Nat) (k : Nat)
    (hs : List.Sorted (· < ·) l) (hk : ∀ x ∈ l, k < x) :
    k < getFreeLibIdFrom l k ∧ getFreeLibIdFrom l k ∉ l ∧
      ∀ m, k < m → m < getFreeLibIdFrom l k → m ∈ l := by
  induction l generalizing k with
  | nil =>
      refine ⟨?_, ?_, ?_⟩
      · simp [getFreeLibIdFrom, getFreeLibIdLoop]
      · simp [getFreeLibIdFrom, getFreeLibIdLoop]
      · intro m hm₁ hm₂
        simp [getFreeLibIdFrom, getFreeLibIdLoop] at hm₂
        omega
  | cons x rest ih =>
      rcases List.sorted_cons.mp hs with ⟨hxr, hrest⟩
      have hkx : k < x := hk x (List.mem_cons_self x rest)
      by_cases hjump : x > k + 1
      · have hres : getFreeLibIdFrom (x :: rest) k = k + 1 := by
          simp only [getFreeLibIdFrom, getFreeLibIdLoop, if_pos hjump]
          have : ¬ (x = k + 1) := by omega
          simp [this]
        refine ⟨by omega, ?_, ?_⟩
        · rw [hres]
          intro hmem
          rcases List.mem_cons.mp hmem with h | h
          · omega
          · have := hxr _ h
            omega
        · intro m hm₁ hm₂
          rw [hres] at hm₂
          omega
      · have hx : x = k + 1 := by omega
        have hstep : getFreeLibIdFrom (x :: rest) k = getFreeLibIdFrom rest (k + 1) := by
          subst hx
          simp [getFreeLibIdFrom, getFreeLibIdLoop]
        have hk' : ∀ y ∈ rest, k + 1 < y := by
          intro y hy
          have := hxr y hy
          omega
        obtain ⟨h₁, h₂, h₃⟩ := ih (k + 1) hrest hk'
        rw [hstep]
        refine ⟨by omega, ?_, ?_⟩
        · intro hmem
          rcases List.mem_cons.mp hmem with h | h
          · omega
          · exact h₂ h
        · intro m hm₁ hm₂
          by_cases hmx : m = x
          · exact hmx ▸ List.mem_cons_self x rest
          · have : k + 1 < m := by omega
            exact List.mem_cons_of_mem x (h₃ m this hm₂)

/-- C4: for a catalog whose existing library ids are positive and listed in
ascending order, `get_free_lib_id` returns the smallest positive integer not
among the existing ids: it fills the first gap left by a deleted library and
returns `max + 1` only when the ids are the contiguous range `1..max`. -/
theorem C4_get_free_lib_id_smallest_unused (ids : List Nat)
    (hs : List.Sorted (· < ·) ids) (hp : ∀ x ∈ ids, 0 < x) :
    0 < get_free_lib_id ids ∧ get_free_lib_id ids ∉ ids ∧
      ∀ m, 0 < m → m < get_free_lib_id ids → m ∈ ids := by
  rw [get_free_lib_id_eq_from]
  exact getFreeLibIdFrom_spec ids 0 hs hp

/-- Witness for C4: on the id set 1, 2, 5 the library id 3 (a recycled gap) is
handed out, and it is indeed the smallest positive unused id. -/
theorem C4_witness :
    0 < get_free_lib_id [1, 2, 5] ∧ get_free_lib_id [1, 2, 5] ∉ [1, 2, 5] ∧
      ∀ m, 0 < m → m < get_free_lib_id [1, 2, 5] → m ∈ [1, 2, 5] :=
  C4_get_free_lib_id_smallest_unused [1, 2, 5] (by decide) (by decide)

/-! ## Sync scheduler: `sync_lib` / `sync_libs` backoff (maintenance.py) -/

/-- Seconds in one day, the unit of `timedelta(days=1)`. -/
def daySeconds : Int := 86400

/-- The scheduling fields of a `Libs` row (models.py): `sync_failures`,
`synced` (as integer seconds) and `active`. -/
structure LibSched where
  sync_failures : Nat
  synced : Int
  active : Bool
deriving DecidableEq

/-- `sync_lib` (maintenance.py): `sync_succeeded` is `false` both when
`ls.sync()` returned falsy and when syncer construction or `sync()` raised
(the `rollback_on_exception` context swallows the exception after rolling the
session back, so control always reaches the two assignments).  On failure the
counter is incremented first and `synced` is then pushed `sync_failures` days
past `utcnow()`; on success the counter resets and `synced = utcnow()`. -/
def sync_lib (item : LibSched) (now : Int) (sync_succeeded : Bool) : LibSched :=
  let failures : Nat := if sync_succeeded then 0 else item.sync_failures + 1
  { item with
      sync_failures := failures,
      synced := now + daySeconds * (failures : Int) }

/-- The eligibility filter of `sync_libs` (maintenance.py):
`Libs.synced < datetime.utcnow() - timedelta(days=1)` and `Libs.active`. -/
def syncEligible (item : LibSched) (now : Int) : Prop :=
  item.synced < now - daySeconds ∧ item.active = true

instance (item : LibSched) (now : Int) : Decidable (syncEligible item now) := by
  unfold syncEligible
  infer_instance

/-- C3: a failed sync sets `sync_failures` to its previous value plus one and
pushes `synced` forward so that the library is not eligible again at any time
up to `now + sync_failures` days (eligibility needs `synced < now - 1 day` and
`active`); a successful sync resets the counter to 0 and sets `synced` to the
current time. -/
theorem C3_sync_lib_backoff (item : LibSched) (now t : Int) :
    ((sync_lib item now false).sync_failures = item.sync_failures + 1 ∧
      (t ≤ now + daySeconds * ((item.sync_failures : Int) + 1) →
        ¬ syncEligible (sync_lib item now false) t)) ∧
    (sync_lib item now true).sync_failures = 0 ∧
    (sync_lib item now true).synced = now := by
  refine ⟨⟨rfl, ?_⟩, rfl, ?_⟩
  · intro ht hel
    rcases hel with ⟨hlt, _⟩
    simp only [sync_lib, daySeconds] at hlt
    simp only [daySeconds] at ht
    push_cast at hlt
    omega
  · simp [sync_lib]

/-- Witness for C3: a library with 2 recorded failures that fails again at
time 0 reaches `sync_failures = 3` and is still ineligible at
`now + 3 days = 259200`; a success at time 0 resets the counter. -/
theorem C3_witness :
    (sync_lib ⟨2, -500000, true⟩ 0 false).sync_failures = 2 + 1 ∧
    ¬ syncEligible (sync_lib ⟨2, -500000, true⟩ 0 false) 259200 ∧
    (sync_lib ⟨2, -500000, true⟩ 0 true).sync_failures = 0 ∧
    (sync_lib ⟨2, -500000, true⟩ 0 true).synced = 0 :=
  ⟨(C3_sync_lib_backoff ⟨2, -500000, true⟩ 0 259200).1.1,
   (C3_sync_lib_backoff ⟨2, -500000, true⟩ 0 259200).1.2 (by decide),
   (C3_sync_lib_backoff ⟨2, -500000, true⟩ 0 259200).2.1,
   (C3_sync_lib_backoff ⟨2, -500000, true⟩ 0 259200).2.2⟩

/-! ## Sync scheduler: `optimise_sync_period` (maintenance.py) -/

/-- The re-spacing interval of `optimise_sync_period` (maintenance.py):
`timedelta(seconds=ceil(86400 / libs_count))`.  The module runs under
Python 2, where `86400 / libs_count` is integer (floor) division, so the
subsequent `math.ceil` is the identity on the already-floored quotient. -/
def optimiseDtSeconds (libsCount : Nat) : Nat := 86400 / libsCount

/-- `optimise_sync_period` (maintenance.py): every library's `synced` is
rewritten; the walk starts at `utcnow() - timedelta(hours=24)` and advances by
`optimiseDtSeconds` after each library, so the i-th library visited receives
`now - 86400 + i * dt`.  (The iteration order of `libs.all()` is the database
respectively row order; the list below records the assigned timestamps in that
order.) -/
def optimise_sync_period (libsCount : Nat) (now : Int) : List Int :=
  (List.range libsCount).map
    (fun i => now - 86400 + (optimiseDtSeconds libsCount : Int) * (i : Int))

/-- C9 (code bug evaluation): with 7 libraries the code starts 24 hours in the
past but spaces consecutive `synced` timestamps by
`86400 / 7 = 12342` seconds — the floor, not the `ceil(86400 / 7) = 12343`
that both the spec and the literal `ceil(...)` call in the source intend;
Python 2 integer division makes the `ceil` a no-op. -/
theorem C9_optimise_sync_period_floor_spacing :
    (optimise_sync_period 7 0).getD 0 0 = -86400 ∧
    (optimise_sync_period 7 0).getD 1 0 - (optimise_sync_period 7 0).getD 0 0 = 12342 ∧
    (optimise_sync_period 7 0).getD 6 0 - (optimise_sync_period 7 0).getD 5 0 = 12342 ∧
    (86400 + 7 - 1) / 7 = 12343 ∧ (12342 : Int) ≠ 12343 := by
  refine ⟨?_, ?_, ?_, by decide, by decide⟩ <;> decide

/-! ## Python string primitives, modelled structurally over character lists -/

/-- Python `str.lower()`, character-wise. -/
def pyLower (s : String) : String := ⟨s.data.map Char.toLower⟩

/-- Python `str.strip()`: drop leading and trailing whitespace. -/
def pyStrip (s : String) : String :=
  ⟨((s.data.dropWhile Char.isWhitespace).reverse.dropWhile
      Char.isWhitespace).reverse⟩

/-- Accumulator loop behind `pySplitWs`. -/
def wordsAux : List Char → List Char → List String
  | [], acc => if acc.isEmpty then [] else [⟨acc.reverse⟩]
  | c :: rest, acc =>
      if c.isWhitespace then
        if acc.isEmpty then wordsAux rest []
        else ⟨acc.reverse⟩ :: wordsAux rest []
      else wordsAux rest (c :: acc)

/-- Python `str.split()` with no argument: split on whitespace runs, dropping
empty fields. -/
def pySplitWs (s : String) : List String := wordsAux s.data []

/-- Python slicing `s[:n]`. -/
def pyTake (s : String) (n : Nat) : String := ⟨s.data.take n⟩

/-! ## Manifest resolver: `get_version` and its pattern (crawler.py) -/

/-- One character of the class `[a-z0-9\.\-\+]` as compiled by `get_version`
(crawler.py): the regex is built with `re.I`, so the `a-z` range also matches
upper-case letters. -/
def versionChar (c : Char) : Bool :=
  ('a' ≤ c && c ≤ 'z') || ('A' ≤ c && c ≤ 'Z') || ('0' ≤ c && c ≤ '9') ||
    c == '.' || c == '-' || c == '+'

/-- The guard `version['name'] and re.match(r"^[a-z0-9\.\-\+]+$", ..., re.I)`
of `get_version`: a non-empty name all of whose characters lie in the class.
(Names reaching this check are stripped manifest strings or commit-sha
prefixes, so the trailing-newline quirk of `$` cannot fire and a full-string
match is faithful.) -/
def versionNameOk (name : String) : Bool :=
  !name.data.isEmpty && name.data.all versionChar

/-- A VCS client's `get_last_commit` result (vcsclient.py): the commit sha and
its date. -/
structure CommitInfo where
  sha : String
  date : Int
deriving DecidableEq

/-- A `LibVersions` candidate produced by `get_version`. -/
structure VersionInfo where
  name : String
  released : Int
deriving DecidableEq

/-- The name `get_version` (crawler.py) resolves before its pattern check:
`str(self.config.get("version", ""))`, replaced by the first 10 characters of
the last commit sha when a VCS client exists and the manifest version is
empty.  `commit` is the `get_last_commit` result, `none` when the manifest
gave no usable repository. -/
def resolvedVersionName (confVersion : Option String) (commit : Option CommitInfo) : String :=
  match commit with
  | some c => if confVersion.getD "" = "" then pyTake c.sha 10 else confVersion.getD ""
  | none => confVersion.getD ""

/-- The release date `get_version` attaches: the last commit date when a VCS
client exists, otherwise `datetime.utcnow()`. -/
def resolvedVersionDate (commit : Option CommitInfo) (now : Int) : Int :=
  match commit with
  | some c => c.date
  | none => now

/-- `get_version` (crawler.py): returns the version record, or raises
`InvalidLibVersion` (modelled as `none`) when the resolved name fails the
pattern guard. -/
def get_version (confVersion : Option String) (commit : Option CommitInfo) (now : Int) :
    Option VersionInfo :=
  if versionNameOk (resolvedVersionName confVersion commit) then
    some ⟨resolvedVersionName confVersion commit, resolvedVersionDate commit now⟩
  else none

/-- The strict lower-case pattern `[a-z0-9.\-+]+` exactly as the claim words
it (without IGNORECASE), stated for comparison with the code's behaviour. -/
def strictVersionPatternSpec (name : String) : Bool :=
  !name.data.isEmpty && name.data.all (fun c =>
    ('a' ≤ c && c ≤ 'z') || ('0' ≤ c && c ≤ '9') || c == '.' || c == '-' || c == '+')

theorem versionNameOk_iff (name : String) :
    versionNameOk name = true ↔
      name.data ≠ [] ∧ ∀ c ∈ name.data,
        ('a' ≤ c ∧ c ≤ 'z') ∨ ('A' ≤ c ∧ c ≤ 'Z') ∨ ('0' ≤ c ∧ c ≤ '9') ∨
          c = '.' ∨ c = '-' ∨ c = '+' := by
  simp only [versionNameOk, versionChar, List.all_eq_true, List.isEmpty_iff,
    Bool.and_eq_true, Bool.or_eq_true, Bool.not_eq_true', decide_eq_true_iff,
    beq_iff_eq, ne_eq]
  constructor
  · rintro ⟨h1, h2⟩
    refine ⟨by simpa using h1, fun c hc => by have := h2 c hc; tauto⟩
  · rintro ⟨h1, h2⟩
    refine ⟨by simpa using h1, fun c hc => by have := h2 c hc; tauto⟩

theorem get_version_eq_none_iff (confVersion : Option String)
    (commit : Option CommitInfo) (now : Int) :
    get_version confVersion commit now = none ↔
      versionNameOk (resolvedVersionName confVersion commit) = false := by
  unfold get_version
  by_cases h : versionNameOk (resolvedVersionName confVersion commit) <;> simp [h]

/-- C7 counterexample: the manifest version `V1.0` contains an upper-case
letter, hence fails the strict lower-case pattern stated by the claim, yet
`get_version` accepts it, because the source compiles the pattern with
`re.I`. -/
theorem C7_counterexample :
    strictVersionPatternSpec "V1.0" = false ∧
    get_version (some "V1.0") none 7 = some ⟨"V1.0", 7⟩ := by
  exact ⟨by decide, rfl⟩

/-- C7 amended: `get_version` raises `InvalidLibVersion` exactly when the
resolved version name is empty or contains a character outside lower-case
letters, upper-case letters (accepted because the source passes `re.I`),
digits, dot, hyphen and plus. -/
theorem C7_get_version_pattern (confVersion : Option String)
    (commit : Option CommitInfo) (now : Int) :
    get_version confVersion commit now = none ↔
      (resolvedVersionName confVersion commit).data = [] ∨
        ∃ c ∈ (resolvedVersionName confVersion commit).data,
          ¬ (('a' ≤ c ∧ c ≤ 'z') ∨ ('A' ≤ c ∧ c ≤ 'Z') ∨ ('0' ≤ c ∧ c ≤ '9') ∨
             c = '.' ∨ c = '-' ∨ c = '+') := by
  rw [get_version_eq_none_iff, Bool.eq_false_iff, Ne, versionNameOk_iff, not_and_or, not_not]
  simp [not_forall]

/-- Witness for C7: a version name containing a space is rejected by
`get_version`. -/
theorem C7_witness : get_version (some "not ok") none 0 = none :=
  (C7_get_version_pattern (some "not ok") none 0).mpr (by decide)

/-! ## VCS provider clients: tag resolution order (vcsclient.py) -/

/-- `GitVCSClient._init_repo` tag resolution (vcsclient.py): the bare tag is
checked against `repo.tags` first, then the `"v"`-prefixed form; `none` means
neither exists and the clone stays at the head of the configured branch. -/
def gitResolveTag (repoTags : List String) (tag : String) : Option String :=
  if tag ∈ repoTags then some tag
  else if ("v" ++ tag) ∈ repoTags then some ("v" ++ tag)
  else none

/-- `GithubVCSClient._init_repo` tag resolution (vcsclient.py): scans
`repo.get_tags()` in the provider's listing order and keeps the first tag
whose name is the bare or the v-prefixed form of the version;
`BitbucketVCSClient._init_repo` applies the same rule to the tags REST
endpoint. -/
def githubResolveTag (repoTags : List String) (tag : String) : Option String :=
  repoTags.find? (fun t => t == tag || t == "v" ++ tag)

/-- The revision used by `GithubVCSClient.get_last_commit`/`clone` after tag
resolution: `self.tag or self.branch or self.default_branch` (tags and branch
names are non-empty strings, so the `or` chain is option fallback). -/
def githubRevision (resolvedTag : Option String) (branch : Option String)
    (defaultBranch : String) : String :=
  resolvedTag.getD (branch.getD defaultBranch)

/-- C6 counterexample: for a repository whose tag list carries both `v1.0`
and `1.0`, the generic Git client resolves version `1.0` to the bare tag even
though the v-prefixed form exists — the code tries the bare form first, not
the v-prefixed form as the claim states. -/
theorem C6_counterexample :
    ("v1.0" ∈ ["v1.0", "1.0"]) ∧
    gitResolveTag ["v1.0", "1.0"] "1.0" = some "1.0" := by
  exact ⟨by decide, by decide⟩

/-- C6 amended: the generic Git client tries the bare version string first
and the v-prefixed form second; the GitHub and Bitbucket clients take the
first tag in the repository's listing whose name is either form; only when
neither form exists does revision resolution fall back to the head of the
configured branch (or the provider default branch). -/
theorem C6_tag_resolution_order (tags : List String) (t : String)
    (branch : Option String) (defBranch : String) :
    (t ∈ tags → gitResolveTag tags t = some t) ∧
    (t ∉ tags → ("v" ++ t) ∈ tags → gitResolveTag tags t = some ("v" ++ t)) ∧
    (t ∉ tags → ("v" ++ t) ∉ tags →
      gitResolveTag tags t = none ∧ githubResolveTag tags t = none ∧
      githubRevision (githubResolveTag tags t) branch defBranch =
        branch.getD defBranch) := by
  refine ⟨?_, ?_, ?_⟩
  · intro h
    simp [gitResolveTag, h]
  · intro h hv
    simp [gitResolveTag, h, hv]
  · intro h hv
    have hg : githubResolveTag tags t = none := by
      rw [githubResolveTag, List.find?_eq_none]
      intro x hx
      simp only [Bool.or_eq_true, beq_iff_eq, not_or]
      exact ⟨fun hxt => h (hxt ▸ hx), fun hxv => hv (hxv ▸ hx)⟩
    refine ⟨by simp [gitResolveTag, h, hv], hg, ?_⟩
    rw [hg]
    rfl

/-- Witness for C6: all three branches of the amended resolution order,
evaluated on concrete tag lists. -/
theorem C6_witness :
    gitResolveTag ["1.0", "v1.0"] "1.0" = some "1.0" ∧
    gitResolveTag ["v2.0"] "2.0" = some "v2.0" ∧
    githubRevision (githubResolveTag ["3.1"] "3.0") none "master" = "master" :=
  ⟨(C6_tag_resolution_order ["1.0", "v1.0"] "1.0" none "master").1 (by decide),
   (C6_tag_resolution_order ["v2.0"] "2.0" none "master").2.1 (by decide) (by decide),
   ((C6_tag_resolution_order ["3.1"] "3.0" none "master").2.2
     (by decide) (by decide)).2.2⟩

/-! ## Download size guard: `util.download_file` (util.py) -/

/-- `CHUNK_SIZE` of `download_file` (util.py). -/
def CHUNK_SIZE : Nat := 1024

/-- Outcome of `download_file`: normal return, `DLFileError` (non-200 status)
or `DLFileSizeError`. -/
inductive DLResult where
  | ok
  | dlFileError
  | dlFileSizeError
deriving DecidableEq

/-- The streaming loop of `download_file` (util.py): before writing each
chunk the counter is compared against the ceiling, and after a write the
counter grows by the fixed `CHUNK_SIZE = 1024` whatever the chunk's actual
length.  When `DLFileSizeError` is raised the `finally` block only closes the
handles, so the destination file keeps the chunks already written — the first
component of the result. -/
def downloadLoop (maxSize : Nat) : List (List Nat) → Nat → List (List Nat) →
    List (List Nat) × DLResult
  | [], _, written => (written, .ok)
  | chunk :: rest, downloaded, written =>
      if downloaded > maxSize then (written, .dlFileSizeError)
      else downloadLoop maxSize rest (downloaded + CHUNK_SIZE) (written ++ [chunk])

/-- `download_file` (util.py): a non-200 status raises `DLFileError` before
the destination is opened; a `content-length` header above the ceiling raises
`DLFileSizeError` before the destination is opened (`headers.get` defaults to
0 when the header is absent); otherwise the chunked streaming loop runs.  The
first component is the destination file's final content, as the list of
chunks written to it. -/
def download_file (maxSize : Nat) (status : Nat) (contentLength : Nat)
    (chunks : List (List Nat)) : List (List Nat) × DLResult :=
  if status ≠ 200 then ([], .dlFileError)
  else if contentLength > maxSize then ([], .dlFileSizeError)
  else downloadLoop maxSize chunks 0 []

theorem downloadLoop_written (maxSize : Nat) (l : List (List Nat)) (d : Nat)
    (w : List (List Nat)) :
    ∃ k, (downloadLoop maxSize l d w).1 = w ++ l.take k := by
  induction l generalizing d w with
  | nil => exact ⟨0, by simp [downloadLoop]⟩
  | cons c rest ih =>
      by_cases h : d > maxSize
      · exact ⟨0, by simp [downloadLoop, h]⟩
      · obtain ⟨k, hk⟩ := ih (d + CHUNK_SIZE) (w ++ [c])
        refine ⟨k + 1, ?_⟩
        simp only [downloadLoop, if_neg h, hk, List.take_succ_cons, List.append_assoc,
          List.singleton_append]

/-- C10: whatever the response, the destination file ends up holding exactly a
prefix of the received chunks — an aborted fetch neither removes nor truncates
what was already written; and because the guard charges a fixed 1024 bytes per
chunk and only checks before the next write, a response of four 1-byte chunks
(4 bytes in total, far below the 2048-byte ceiling) is still aborted with
`DLFileSizeError`, leaving the first three chunks on disk. -/
theorem C10_download_file_partial_and_overcount :
    (∀ maxSize status contentLength chunks, ∃ k,
       (download_file maxSize status contentLength chunks).1 = chunks.take k) ∧
    ((([[1], [1], [1], [1]] : List (List Nat)).map List.length).sum ≤ 2048 ∧
      download_file 2048 200 0 [[1], [1], [1], [1]] =
        ([[1], [1], [1]], .dlFileSizeError) ∧
      ([[1], [1], [1]] : List (List Nat)) ≠ []) := by
  constructor
  · intro m s cl ch
    unfold download_file
    by_cases h1 : s ≠ 200
    · exact ⟨0, by simp [h1]⟩
    · by_cases h2 : cl > m
      · exact ⟨0, by simp [h1, h2]⟩
      · obtain ⟨k, hk⟩ := downloadLoop_written m ch 0 []
        exact ⟨k, by simpa [h1, h2] using hk⟩
  · exact ⟨by decide, by decide, by decide⟩

/-! ## Sync scheduler: `process_pending_libs` (maintenance.py) -/

/-- A `PendingLibs` row (models.py): a registration awaiting promotion.
`conf_url` carries a uniqueness constraint in the schema. -/
structure PendingItem where
  conf_url : String
  approved : Bool
  processed : Bool
deriving DecidableEq

/-- A `Libs` row as far as `process_pending_libs` creates one: its (recycled)
id and its manifest URL. -/
structure LibRow where
  id : Nat
  conf_url : String
deriving DecidableEq

/-- The committed database state threaded through `process_pending_libs`. -/
structure PendingDB where
  libs : List LibRow
  pending : List PendingItem
deriving DecidableEq

/-- The ascending id list `query(models.Libs.id).order_by(Libs.id.asc())`
feeding `get_free_lib_id`. -/
def sortedLibIds (libs : List LibRow) : List Nat :=
  (libs.map (fun l => l.id)).insertionSort (· ≤ ·)

/-- One iteration of the `process_pending_libs` loop (maintenance.py) for a
selected pending row, run inside `with util.rollback_on_exception(...)`: a
fresh `Libs` row with a recycled id is added and synchronized, and only after
`ls.sync()` returns does `item.processed = True` run, followed by
`db_session.commit()`.  `syncOk` tells whether syncer construction and
`sync()` succeeded; when either raises, `rollback_on_exception` rolls the
session back to the last committed state — dropping both the new `Libs` row
and any `processed` update — and swallows the exception, so the state is
returned unchanged.  (`PendingLibs.conf_url` is unique, so updating the row
by its `conf_url` is exact.) -/
def processPendingItem (db : PendingDB) (item : PendingItem) (syncOk : Bool) :
    PendingDB :=
  if syncOk then
    { libs := db.libs ++ [⟨get_free_lib_id (sortedLibIds db.libs), item.conf_url⟩],
      pending := db.pending.map (fun p =>
        if p.conf_url = item.conf_url then { p with processed := true } else p) }
  else db

/-- The row selection of `process_pending_libs` (maintenance.py): the query
keeps approved, unprocessed registrations, and the loop body skips any row
whose `conf_url` already belongs to a library (the outer join's `lib_id`). -/
def pendingSelected (db : PendingDB) : List PendingItem :=
  db.pending.filter (fun it =>
    !it.processed && it.approved &&
      !(db.libs.any (fun l => l.conf_url == it.conf_url)))

/-- `process_pending_libs` (maintenance.py): iterates over the selected rows
of the initial query snapshot, threading the committed state; `syncOutcome`
abstracts, per manifest URL, whether that library's immediate synchronization
succeeds. -/
def process_pending_libs (db : PendingDB) (syncOutcome : String → Bool) :
    PendingDB :=
  (pendingSelected db).foldl
    (fun st it => processPendingItem st it (syncOutcome it.conf_url)) db

/-- C2 counterexample: an approved, unprocessed registration whose immediate
synchronization raises is left with `processed = False` — the assignment sits
after `ls.sync()` inside the rolled-back transaction — and the very same item
is selected again by the next `process_pending_libs` run, contrary to the
claim that `processed` is set regardless of success or failure. -/
theorem C2_counterexample :
    process_pending_libs ⟨[], [⟨"http://x/library.json", true, false⟩]⟩
        (fun _ => false) =
      ⟨[], [⟨"http://x/library.json", true, false⟩]⟩ ∧
    pendingSelected
        (process_pending_libs ⟨[], [⟨"http://x/library.json", true, false⟩]⟩
          (fun _ => false)) =
      [⟨"http://x/library.json", true, false⟩] := by
  exact ⟨by decide, by decide⟩

/-- C2 amended: the `processed` flag is set to True only when the immediate
synchronization succeeds; when it raises, the transaction is rolled back,
`processed` stays False and the whole committed state is unchanged, so the
item is picked up again by a later run of `process_pending_libs`. -/
theorem C2_processed_only_on_success (db : PendingDB) (item : PendingItem)
    (syncOk : Bool) :
    (syncOk = false → processPendingItem db item syncOk = db) ∧
    (syncOk = true →
      ∀ p ∈ (processPendingItem db item syncOk).pending,
        p.conf_url = item.conf_url → p.processed = true) := by
  constructor
  · intro h
    simp [processPendingItem, h]
  · intro h p hp hurl
    subst h
    simp only [processPendingItem, if_pos trivial, if_true] at hp
    rcases List.mem_map.mp hp with ⟨q, hq, hpq⟩
    by_cases hc : q.conf_url = item.conf_url
    · rw [← hpq]
      simp [hc]
    · rw [← hpq] at hurl
      rw [if_neg hc] at hurl
      exact absurd hurl hc

/-- Witness for C2: the failure branch leaves a concrete one-item state
unchanged; the success branch marks the matching pending row processed. -/
theorem C2_witness :
    processPendingItem ⟨[], [⟨"u", true, false⟩]⟩ ⟨"u", true, false⟩ false =
      ⟨[], [⟨"u", true, false⟩]⟩ ∧
    (⟨"u", true, true⟩ : PendingItem).processed = true :=
  ⟨(C2_processed_only_on_success ⟨[], [⟨"u", true, false⟩]⟩
      ⟨"u", true, false⟩ false).1 rfl,
   (C2_processed_only_on_success ⟨[], [⟨"u", true, false⟩]⟩
      ⟨"u", true, false⟩ true).2 rfl ⟨"u", true, true⟩ (by decide) rfl⟩

/-! ## Manifest resolver: `validate_config` (crawler.py) -/

/-- A parsed manifest value (JSON or properties dialect), sufficient to model
Python truthiness and the `in` operator. -/
inductive JVal where
  | jnull
  | jbool (b : Bool)
  | jnum (n : Int)
  | jstr (s : String)
  | jlist (xs : List JVal)
  | jdict (kvs : List (String × JVal))

/-- Python truthiness of a manifest value. -/
def JVal.truthy : JVal → Bool
  | .jnull => false
  | .jbool b => b
  | .jnum n => n != 0
  | .jstr s => !s.data.isEmpty
  | .jlist xs => !xs.isEmpty
  | .jdict kvs => !kvs.isEmpty

/-- `isinstance(v, list)`. -/
def JVal.isList : JVal → Bool
  | .jlist _ => true
  | _ => false

/-- `isinstance(v, dict)`. -/
def JVal.isDict : JVal → Bool
  | .jdict _ => true
  | _ => false

/-- Python `v == s` against a string literal (equality across types is
`False`). -/
def JVal.isStr (v : JVal) (s : String) : Bool :=
  match v with
  | .jstr t => t == s
  | _ => false

/-- Contiguous substring test over character lists, the meaning of Python's
`needle in haystack` on strings. -/
def strContainsAux (needle : List Char) : List Char → Bool
  | [] => needle.isEmpty
  | c :: rest => needle.isPrefixOf (c :: rest) || strContainsAux needle rest

/-- Python `needle in haystack` for strings. -/
def strContains (haystack needle : String) : Bool :=
  strContainsAux needle.data haystack.data

/-- Modelled from the spec: `util.is_mbed_repository`, referenced by
crawler.py and vcsclient.py, is missing from the sources.  The spec calls the
supported shape "hg with an mbed host", and the legacy in-tree counterpart
(`util.validate_libconf`, cvsclient.py) tests `"developer.mbed.org" in url`;
the model accepts URLs mentioning an `mbed.org` host. -/
def is_mbed_repository (url : String) : Bool :=
  strContains url "mbed.org"

/-- Python `needle in value` for a string needle: key lookup on mappings,
substring on strings, element equality on lists; `none` models the TypeError
raised for the remaining types. -/
def pyIn (needle : String) : JVal → Option Bool
  | .jdict kvs => some (kvs.any (fun kv => kv.1 == needle))
  | .jstr s => some (strContains s needle)
  | .jlist xs => some (xs.any (fun v => v.isStr needle))
  | _ => none

/-- `key in config` over the manifest dict. -/
def cfgHas (config : List (String × JVal)) (k : String) : Bool :=
  config.any (fun kv => kv.1 == k)

/-- `config.get(key)`; manifest keys are unique, the first binding wins. -/
def cfgGet (config : List (String × JVal)) (k : String) : Option JVal :=
  (config.find? (fun kv => kv.1 == k)).map (fun kv => kv.2)

/-- `repository.get("type", None)` of a repository mapping. -/
def repoTy (repo : List (String × JVal)) : JVal :=
  ((repo.find? (fun kv => kv.1 == "type")).map (fun kv => kv.2)).getD .jnull

/-- `repository.get("url", "")` of a repository mapping. -/
def repoUrl (repo : List (String × JVal)) : JVal :=
  ((repo.find? (fun kv => kv.1 == "url")).map (fun kv => kv.2)).getD (.jstr "")

/-- Outcome of `validate_config`: the config returned unchanged, an
`InvalidLibConf` raise, or a bare Python TypeError/AttributeError from a
misshapen value. -/
inductive ValidateResult where
  | ok
  | invalid
  | typeErr
deriving DecidableEq

/-- The supported-provider test of `validate_config` (crawler.py lines
117-123): `(type == "git" and "github.com" in url) or (type == "hg" and
util.is_mbed_repository(url)) or (type in ["hg", "git"] and "bitbucket.org"
in url)`, with Python short-circuit evaluation; `none` models a TypeError
from an `in` test (or the mbed helper) on an unsupported url type. -/
def providerCheck (ty url : JVal) : Option Bool :=
  match (if ty.isStr "git" then pyIn "github.com" url else some false) with
  | none => none
  | some true => some true
  | some false =>
      match (if ty.isStr "hg" then
               (match url with
                | .jstr u => some (is_mbed_repository u)
                | _ => none)
             else some false) with
      | none => none
      | some true => some true
      | some false =>
          if ty.isStr "hg" || ty.isStr "git" then pyIn "bitbucket.org" url
          else some false

/-- The effective authors list of `validate_config` (crawler.py):
`authors = config.get("authors", None)`, a truthy non-list value being
wrapped in a singleton list; `none` means `not authors` holds and the
`authors field is required` error fires. -/
def effectiveAuthors (config : List (String × JVal)) : Option (List JVal) :=
  match (cfgGet config "authors").getD .jnull with
  | .jlist xs => if xs.isEmpty then none else some xs
  | v => if v.truthy then some [v] else none

/-- `all("name" in item for item in authors)` with Python short-circuiting:
a first failing item stops evaluation, so a TypeError (`none`) from a later
item is never raised. -/
def allHaveName : List JVal → Option Bool
  | [] => some true
  | item :: rest =>
      match pyIn "name" item with
      | none => none
      | some false => some false
      | some true => allHaveName rest

/-- The tail of `validate_config` after the provider early return
(crawler.py lines 126-144): the authors checks, the git/svn early return
(`repoType` is the present repository's `type`, `none` when the manifest has
no repository) and the self-hosted `version`/`downloadUrl` requirements. -/
def validateAuthorsStep (config : List (String × JVal)) (repoType : Option JVal) :
    ValidateResult :=
  match effectiveAuthors config with
  | none => .invalid
  | some authors =>
      match allHaveName authors with
      | none => .typeErr
      | some false => .invalid
      | some true =>
          if (match repoType with
              | some ty => ty.isStr "git" || ty.isStr "svn"
              | none => false) then .ok
          else if !(cfgHas config "version") then .invalid
          else if !(cfgHas config "downloadUrl") then .invalid
          else .ok

/-- The repository branch of `validate_config` (crawler.py lines 117-123 and
its fall-through): the supported-provider early return when a repository is
declared, then the authors/self-hosted tail.  A present non-mapping
`repository` hits `.get` on a non-dict and raises AttributeError
(`typeErr`). -/
def validateRepoStep (config : List (String × JVal)) : ValidateResult :=
  match cfgGet config "repository" with
  | some (.jdict repo) =>
      match providerCheck (repoTy repo) (repoUrl repo) with
      | none => .typeErr
      | some true => .ok
      | some false => validateAuthorsStep config (some (repoTy repo))
  | some _ => .typeErr
  | none => validateAuthorsStep config none

/-- `LibSyncerBase.validate_config` (crawler.py): the mandatory-field check,
the dependencies check (a truthiness test on `config.get("dependencies")`),
then the repository branch. -/
def validate_config (config : List (String × JVal)) : ValidateResult :=
  if !(cfgHas config "name" && cfgHas config "keywords" && cfgHas config "description") then
    .invalid
  else if ((cfgGet config "dependencies").getD .jnull).truthy
      && !(((cfgGet config "dependencies").getD .jnull).isList
           || ((cfgGet config "dependencies").getD .jnull).isDict) then
    .invalid
  else validateRepoStep config

/-- A manifest with a present, truthy-false, non-list/mapping `dependencies`
entry and a valid GitHub repository shape. -/
def c5Counterexample : List (String × JVal) :=
  [("name", .jstr "Foo"), ("keywords", .jstr "led"), ("description", .jstr "x"),
   ("dependencies", .jstr ""),
   ("repository", .jdict [("type", .jstr "git"),
                          ("url", .jstr "https://github.com/a/b")])]

/-- C5 counterexample: `dependencies` is present and is neither a list nor a
mapping, so the claim demands `InvalidManifest`; yet `validate_config`
returns the configuration unchanged, because the code only tests
`config.get("dependencies")` for truthiness and the empty string is falsy. -/
theorem C5_counterexample :
    cfgHas c5Counterexample "dependencies" = true ∧
    ((cfgGet c5Counterexample "dependencies").getD .jnull).isList = false ∧
    ((cfgGet c5Counterexample "dependencies").getD .jnull).isDict = false ∧
    validate_config c5Counterexample = .ok := by
  exact ⟨by decide, by decide, by decide, by decide⟩

/-- Matches string values. -/
def JVal.isString : JVal → Bool
  | .jstr _ => true
  | _ => false

theorem JVal.isString_iff (v : JVal) : v.isString = true ↔ ∃ s, v = .jstr s := by
  cases v <;> simp [JVal.isString]

/-- The supported provider shapes as the claim lists them: git with
github.com, hg with an mbed host, git or hg with bitbucket.org, read off the
declared repository's `(type, url)`. -/
def specProviderOk (config : List (String × JVal)) : Bool :=
  match cfgGet config "repository" with
  | some (.jdict repo) =>
      match repoUrl repo with
      | .jstr u =>
          ((repoTy repo).isStr "git" && strContains u "github.com")
          || ((repoTy repo).isStr "hg" && is_mbed_repository u)
          || (((repoTy repo).isStr "hg" || (repoTy repo).isStr "git")
              && strContains u "bitbucket.org")
      | _ => false
  | _ => false

/-- The claim's authors condition, amended to the code's wrapping behaviour:
a non-empty authors value (a list, or a single truthy entry that the code
wraps) in which every entry has a `name`. -/
def specAuthorsOk (config : List (String × JVal)) : Bool :=
  match effectiveAuthors config with
  | some authors => authors.all (fun item => (pyIn "name" item).getD false)
  | none => false

/-- The claim's "repository type is git or svn" alternative. -/
def specGitSvn (config : List (String × JVal)) : Bool :=
  match cfgGet config "repository" with
  | some (.jdict repo) => (repoTy repo).isStr "git" || (repoTy repo).isStr "svn"
  | _ => false

/-- The claim's acceptance condition for `validate_config`, amended only
where the code forced it: mandatory `name`/`keywords`/`description`; a
`dependencies` entry that is present AND TRUTHY must be a list or a mapping
(the code merely tests truthiness, so a present falsy value passes); and
either a supported provider shape, or a wrapped non-empty authors value with
`name`s plus either a git/svn repository type or both `version` and
`downloadUrl`. -/
def specValidManifest (config : List (String × JVal)) : Bool :=
  (cfgHas config "name" && cfgHas config "keywords" && cfgHas config "description")
  && (!((cfgGet config "dependencies").getD .jnull).truthy
      || ((cfgGet config "dependencies").getD .jnull).isList
      || ((cfgGet config "dependencies").getD .jnull).isDict)
  && (specProviderOk config
      || (specAuthorsOk config
          && (specGitSvn config
              || (cfgHas config "version" && cfgHas config "downloadUrl"))))

/-- Manifests on which `validate_config` cannot hit a bare Python
TypeError/AttributeError: a present `repository` is a mapping whose `url`
entry (if any) is a string, and every effective author entry supports the
`in` operator. -/
def wellShaped (config : List (String × JVal)) : Prop :=
  (match cfgGet config "repository" with
   | some (.jdict repo) => (repoUrl repo).isString = true
   | some _ => False
   | none => True) ∧
  (match effectiveAuthors config with
   | some authors => ∀ item ∈ authors, (pyIn "name" item).isSome
   | none => True)

theorem providerCheck_jstr (ty : JVal) (u : String) :
    providerCheck ty (.jstr u) =
      some ((ty.isStr "git" && strContains u "github.com")
        || (ty.isStr "hg" && is_mbed_repository u)
        || ((ty.isStr "hg" || ty.isStr "git") && strContains u "bitbucket.org")) := by
  unfold providerCheck
  cases hg : ty.isStr "git" <;> cases hh : ty.isStr "hg" <;>
    simp [pyIn, hg, hh] <;>
    cases strContains u "github.com" <;>
    cases is_mbed_repository u <;>
    cases strContains u "bitbucket.org" <;> simp

theorem allHaveName_eq (authors : List JVal)
    (h : ∀ item ∈ authors, (pyIn "name" item).isSome) :
    allHaveName authors =
      some (authors.all (fun item => (pyIn "name" item).getD false)) := by
  induction authors with
  | nil => rfl
  | cons a rest ih =>
      have ha : (pyIn "name" a).isSome := h a (List.mem_cons_self _ _)
      rcases hb : pyIn "name" a with _ | b
      · rw [hb] at ha
        simp at ha
      · cases b
        · simp [allHaveName, hb]
        · rw [allHaveName, hb]
          rw [ih (fun i hi => h i (List.mem_cons_of_mem _ hi))]
          simp [hb]

theorem validateAuthorsStep_ok_iff (config : List (String × JVal))
    (rt : Option JVal)
    (h : match effectiveAuthors config with
         | some authors => ∀ item ∈ authors, (pyIn "name" item).isSome
         | none => True) :
    validateAuthorsStep config rt = .ok ↔
      (specAuthorsOk config = true ∧
        ((match rt with
          | some ty => ty.isStr "git" || ty.isStr "svn"
          | none => false) = true ∨
         (cfgHas config "version" && cfgHas config "downloadUrl") = true)) := by
  unfold validateAuthorsStep specAuthorsOk
  rcases hea : effectiveAuthors config with _ | authors
  · simp
  · rw [hea] at h
    dsimp only
    rw [allHaveName_eq authors h]
    cases hall : authors.all (fun item => (pyIn "name" item).getD false)
    · simp [hall]
    · cases hg : (match rt with
          | some ty => ty.isStr "git" || ty.isStr "svn"
          | none => false)
      · cases hv : cfgHas config "version"
        · simp [hall, hg, hv]
        · cases hd : cfgHas config "downloadUrl" <;> simp [hall, hg, hv, hd]
      · simp [hall, hg]

theorem validateRepoStep_ok_iff (config : List (String × JVal))
    (hrep : match cfgGet config "repository" with
            | some (.jdict repo) => (repoUrl repo).isString = true
            | some _ => False
            | none => True)
    (hauth : match effectiveAuthors config with
             | some authors => ∀ item ∈ authors, (pyIn "name" item).isSome
             | none => True) :
    validateRepoStep config = .ok ↔
      (specProviderOk config
        || (specAuthorsOk config
            && (specGitSvn config
                || (cfgHas config "version" && cfgHas config "downloadUrl")))) = true := by
  rcases hr : cfgGet config "repository" with _ | v
  · simp only [validateRepoStep, specProviderOk, specGitSvn, hr]
    rw [validateAuthorsStep_ok_iff config none hauth]
    simp
  · rw [hr] at hrep
    cases v with
    | jdict repo =>
        obtain ⟨u, hu⟩ := (JVal.isString_iff _).mp hrep
        simp only [validateRepoStep, specProviderOk, specGitSvn, hr, hu,
          providerCheck_jstr]
        cases hp : ((repoTy repo).isStr "git" && strContains u "github.com")
            || ((repoTy repo).isStr "hg" && is_mbed_repository u)
            || (((repoTy repo).isStr "hg" || (repoTy repo).isStr "git")
                && strContains u "bitbucket.org")
        · simp only [hp]
          rw [validateAuthorsStep_ok_iff config (some (repoTy repo)) hauth]
          simp
        · simp only [hp]
          simp
    | jnull => exact hrep.elim
    | jbool b => exact hrep.elim
    | jnum n => exact hrep.elim
    | jstr s => exact hrep.elim
    | jlist xs => exact hrep.elim

/-- C5 amended: for every well-shaped parsed manifest, `validate_config`
returns the configuration unchanged exactly under the claim's condition with
the two forced amendments — the dependencies test only fires on truthy
values, and a single truthy non-list authors entry counts as a one-element
authors list. -/
theorem C5_validate_config_characterization (config : List (String × JVal))
    (h : wellShaped config) :
    validate_config config = .ok ↔ specValidManifest config = true := by
  obtain ⟨hrep, hauth⟩ := h
  unfold validate_config specValidManifest
  cases h1 : (cfgHas config "name" && cfgHas config "keywords" &&
      cfgHas config "description")
  · simp [h1]
  · cases h2 : ((cfgGet config "dependencies").getD .jnull).truthy
    · simpa [h1, h2] using validateRepoStep_ok_iff config hrep hauth
    · cases h3 : (((cfgGet config "dependencies").getD .jnull).isList
          || ((cfgGet config "dependencies").getD .jnull).isDict)
      · simp [h1, h2, h3]
      · simpa [h1, h2, h3] using validateRepoStep_ok_iff config hrep hauth

/-- A well-shaped manifest accepted by `validate_config`. -/
def c5WitnessConfig : List (String × JVal) :=
  [("name", .jstr "Foo"), ("keywords", .jstr "led"), ("description", .jstr "x"),
   ("repository", .jdict [("type", .jstr "git"),
                          ("url", .jstr "https://github.com/a/b")])]

/-- Witness for C5: the characterization applied to a concrete accepted
manifest. -/
theorem C5_witness : validate_config c5WitnessConfig = .ok :=
  (C5_validate_config_characterization c5WitnessConfig ⟨rfl, trivial⟩).mpr
    (by decide)

/-! ## Metadata synchronizer: `sync_keywords` / `sync_authors` (crawler.py) -/

/-- A `Keywords` row (models.py): `name` carries a UNIQUE constraint. -/
structure KeywordRow where
  id : Nat
  name : String
deriving DecidableEq

/-- An `Authors` row (models.py): `name` carries a UNIQUE constraint. -/
structure AuthorRow where
  id : Nat
  name : String
  email : Option String
  url : Option String
deriving DecidableEq

/-- A manifest author entry after `sync_authors` merged it over the
`dict(email=None, url=None, maintainer=False)` template. -/
structure AuthorIn where
  name : String
  email : Option String
  url : Option String
  maintainer : Bool
deriving DecidableEq

/-- The global vocabulary tables threaded through the metadata synchronizer,
plus the ids the database will assign to the next inserted rows. -/
structure Catalog where
  keywords : List KeywordRow
  authors : List AuthorRow
  nextKeywordId : Nat
  nextAuthorId : Nat
deriving DecidableEq

/-- The guarded append in `_cleanup_keywords` (crawler.py):
`if _item not in result: result.append(_item)`. -/
def appendIfNew (r : List String) (s : String) : List String :=
  if s ∈ r then r else r ++ [s]

/-- The per-item loop of `_cleanup_keywords` (crawler.py): empty or already
collected items are skipped; an item 30 characters or longer is split on
whitespace (Python `str.split()` drops empty fields), each field stripped and
truncated to 30 characters and appended if new; shorter items are appended
whole. -/
def cleanupLoop : List String → List String → List String
  | [], result => result
  | item :: rest, result =>
      if item = "" ∨ item ∈ result then cleanupLoop rest result
      else if 30 ≤ item.length then
        cleanupLoop rest
          (((pySplitWs item).map (fun s => pyTake (pyStrip s) 30)).foldl
            appendIfNew result)
      else cleanupLoop rest (result ++ [item])

/-- First-occurrence deduplication: the order in which the model reads
Python's `list(set(...))` (the set's iteration order is arbitrary; every
property proved below is order-independent). -/
def dedup (l : List String) : List String := l.foldl appendIfNew []

/-- `_cleanup_keywords` (crawler.py) on an already-split keyword list (a
comma-separated manifest string is split by the caller-side branch): every
keyword is lower-cased and stripped, deduplicated (`list(set(...))`), and run
through the splitting loop. -/
def cleanup_keywords (keywords : List String) : List String :=
  cleanupLoop (dedup (keywords.map (fun k => pyStrip (pyLower k)))) []

/-- Fresh `Keywords` rows for the missing names, with consecutive database
ids. -/
def newKeywordRows (startId : Nat) : List String → List KeywordRow
  | [] => []
  | n :: rest => ⟨startId, n⟩ :: newKeywordRows (startId + 1) rest

/-- The rows returned by `sync_keywords`' lookup
`query(Keywords).filter(Keywords.name.in_(keywords))` (crawler.py). -/
def kwMatching (cat : Catalog) (raw : List String) : List KeywordRow :=
  cat.keywords.filter (fun row => row.name ∈ cleanup_keywords raw)

/-- `set(keywords) - existing` in `sync_keywords` (crawler.py), modelled in
first-occurrence order; the cleaned list is duplicate-free already. -/
def kwFresh (cat : Catalog) (raw : List String) : List String :=
  (cleanup_keywords raw).filter
    (fun n => n ∉ (kwMatching cat raw).map (fun row => row.name))

/-- `sync_keywords` (crawler.py): cleans the keyword list, clears the
library's associations, attaches every existing `Keywords` row whose name is
among the cleaned keywords and creates a row for each remaining name.
Returns the catalog after the transaction's inserts together with the
library's rebuilt association list. -/
def sync_keywords (cat : Catalog) (raw : List String) :
    Catalog × List KeywordRow :=
  ({ cat with
      keywords := cat.keywords ++ newKeywordRows cat.nextKeywordId (kwFresh cat raw),
      nextKeywordId := cat.nextKeywordId + (kwFresh cat raw).length },
   kwMatching cat raw ++ newKeywordRows cat.nextKeywordId (kwFresh cat raw))

/-- The creation loop body of `sync_authors` (crawler.py) for one missing
name: every manifest entry carrying that name produces a fresh `Authors` row
(consecutive ids) and a `LibsAuthors` association with the entry's
maintainer flag. -/
def newAuthorRowsFor (startId : Nat) : List AuthorIn → List (AuthorRow × Bool)
  | [] => []
  | it :: rest =>
      (⟨startId, it.name, it.email, it.url⟩, it.maintainer) ::
        newAuthorRowsFor (startId + 1) rest

/-- The outer creation loop of `sync_authors` over the missing names; ids
keep incrementing across names, one per created row. -/
def createAuthors (startId : Nat) (freshNames : List String)
    (items : List AuthorIn) : List (AuthorRow × Bool) :=
  match freshNames with
  | [] => []
  | n :: rest =>
      newAuthorRowsFor startId (items.filter (fun it => it.name = n)) ++
        createAuthors (startId + (items.filter (fun it => it.name = n)).length)
          rest items

/-- The rows returned by `sync_authors`' lookup
`query(Authors).filter(Authors.name.in_(authornames))` (crawler.py). -/
def auMatching (cat : Catalog) (confauthors : List AuthorIn) : List AuthorRow :=
  cat.authors.filter (fun row => row.name ∈ confauthors.map (fun it => it.name))

/-- The double loop of `sync_authors` over the looked-up rows: one
`LibsAuthors` association per manifest entry whose name equals the row's. -/
def auAssocExisting (cat : Catalog) (confauthors : List AuthorIn) :
    List (AuthorRow × Bool) :=
  (auMatching cat confauthors).flatMap (fun row =>
    (confauthors.filter (fun it => it.name = row.name)).map
      (fun it => (row, it.maintainer)))

/-- `set(authornames) - existing` in `sync_authors` (crawler.py), modelled in
first-occurrence order. -/
def auFreshNames (cat : Catalog) (confauthors : List AuthorIn) : List String :=
  (dedup (confauthors.map (fun it => it.name))).filter
    (fun n => n ∉ (auMatching cat confauthors).map (fun row => row.name))

/-- The `Authors` rows `sync_authors` creates for the missing names. -/
def auCreated (cat : Catalog) (confauthors : List AuthorIn) :
    List (AuthorRow × Bool) :=
  createAuthors cat.nextAuthorId (auFreshNames cat confauthors) confauthors

/-- `sync_authors` (crawler.py) on the normalized author list (the template
merge and the github-owner fallback precede the name collection): clears the
association, attaches every looked-up `Authors` row once per matching entry,
then creates one `Authors` row per entry carrying a missing name.  Committing
the created rows must satisfy the UNIQUE constraint on `Authors.name`
(models.py); a violating flush raises `IntegrityError`, the library's
transaction rolls back and the sync fails, modelled as `none`. -/
def sync_authors (cat : Catalog) (confauthors : List AuthorIn) :
    Option (Catalog × List (AuthorRow × Bool)) :=
  if (((auCreated cat confauthors).map (fun rb => rb.1.name)).Nodup ∧
      ∀ rb ∈ auCreated cat confauthors,
        rb.1.name ∉ cat.authors.map (fun row => row.name)) then
    some ({ cat with
              authors := cat.authors ++ (auCreated cat confauthors).map (fun rb => rb.1),
              nextAuthorId := cat.nextAuthorId + (auCreated cat confauthors).length },
          auAssocExisting cat confauthors ++ auCreated cat confauthors)
  else none

theorem appendIfNew_nodup (r : List String) (s : String) (h : r.Nodup) :
    (appendIfNew r s).Nodup := by
  unfold appendIfNew
  split
  · exact h
  · next hns =>
      rw [List.nodup_append]
      exact ⟨h, List.nodup_singleton s, by simpa using hns⟩

theorem foldl_appendIfNew_nodup (subs : List String) (r : List String)
    (h : r.Nodup) : (subs.foldl appendIfNew r).Nodup := by
  induction subs generalizing r with
  | nil => exact h
  | cons s rest ih => exact ih _ (appendIfNew_nodup r s h)

theorem mem_foldl_appendIfNew (l r : List String) (a : String) :
    a ∈ l.foldl appendIfNew r ↔ a ∈ r ∨ a ∈ l := by
  induction l generalizing r with
  | nil => simp
  | cons s rest ih =>
      rw [List.foldl_cons, ih]
      unfold appendIfNew
      split
      · next hs =>
          simp only [List.mem_cons]
          constructor
          · rintro (h | h)
            · exact Or.inl h
            · exact Or.inr (Or.inr h)
          · rintro (h | h | h)
            · exact Or.inl h
            · exact Or.inl (h ▸ hs)
            · exact Or.inr h
      · simp [List.mem_append, or_assoc]

theorem dedup_nodup (l : List String) : (dedup l).Nodup :=
  foldl_appendIfNew_nodup l [] List.nodup_nil

theorem mem_dedup (l : List String) (a : String) : a ∈ dedup l ↔ a ∈ l := by
  unfold dedup
  rw [mem_foldl_appendIfNew]
  simp

theorem cleanupLoop_nodup (l r : List String) (h : r.Nodup) :
    (cleanupLoop l r).Nodup := by
  induction l generalizing r with
  | nil => exact h
  | cons item rest ih =>
      unfold cleanupLoop
      split
      · exact ih r h
      · next hskip =>
          split
          · exact ih _ (foldl_appendIfNew_nodup _ r h)
          · refine ih _ ?_
            rw [List.nodup_append]
            refine ⟨h, List.nodup_singleton item, ?_⟩
            simpa using fun hm => hskip (Or.inr hm)

theorem cleanup_keywords_nodup (raw : List String) :
    (cleanup_keywords raw).Nodup :=
  cleanupLoop_nodup _ [] List.nodup_nil

theorem newKeywordRows_names (s : Nat) (l : List String) :
    (newKeywordRows s l).map (fun r => r.name) = l := by
  induction l generalizing s with
  | nil => rfl
  | cons n rest ih => simp [newKeywordRows, ih]

theorem sync_keywords_keywords (cat : Catalog) (raw : List String) :
    (sync_keywords cat raw).1.keywords =
      cat.keywords ++ newKeywordRows cat.nextKeywordId (kwFresh cat raw) := rfl

theorem sync_keywords_authors (cat : Catalog) (raw : List String) :
    (sync_keywords cat raw).1.authors = cat.authors := rfl

theorem sync_keywords_assoc (cat : Catalog) (raw : List String) :
    (sync_keywords cat raw).2 =
      kwMatching cat raw ++ newKeywordRows cat.nextKeywordId (kwFresh cat raw) := rfl

theorem kwFresh_not_in_catalog (cat : Catalog) (raw : List String)
    (n : String) (hn : n ∈ kwFresh cat raw) :
    n ∉ cat.keywords.map (fun r => r.name) := by
  intro hmem
  rw [kwFresh, List.mem_filter] at hn
  obtain ⟨hkws, hnot⟩ := hn
  have hnot' : n ∉ (kwMatching cat raw).map (fun row => row.name) := by
    simpa using hnot
  rcases List.mem_map.mp hmem with ⟨row, hrow, hname⟩
  exact hnot' (List.mem_map.mpr
    ⟨row, List.mem_filter.mpr ⟨hrow, by simp [hname, hkws]⟩, hname⟩)

theorem sync_keywords_nodup (cat : Catalog) (raw : List String)
    (hu : (cat.keywords.map (fun r => r.name)).Nodup) :
    ((sync_keywords cat raw).1.keywords.map (fun r => r.name)).Nodup := by
  rw [sync_keywords_keywords, List.map_append, newKeywordRows_names,
    List.nodup_append]
  refine ⟨hu, (cleanup_keywords_nodup raw).filter _, ?_⟩
  intro a h1 h2
  exact kwFresh_not_in_catalog cat raw a h2 h1

theorem sync_keywords_catalog_sub (cat : Catalog) (raw : List String) :
    ∀ r ∈ cat.keywords, r ∈ (sync_keywords cat raw).1.keywords := by
  intro r hr
  rw [sync_keywords_keywords]
  exact List.mem_append_left _ hr

theorem sync_keywords_assoc_sub (cat : Catalog) (raw : List String) :
    ∀ r ∈ (sync_keywords cat raw).2, r ∈ (sync_keywords cat raw).1.keywords := by
  intro r hr
  rw [sync_keywords_assoc] at hr
  rw [sync_keywords_keywords]
  rcases List.mem_append.mp hr with h | h
  · exact List.mem_append_left _ (List.mem_of_mem_filter h)
  · exact List.mem_append_right _ h

theorem sync_keywords_assoc_exists (cat : Catalog) (raw : List String)
    (n : String) (hn : n ∈ cleanup_keywords raw) :
    ∃ r ∈ (sync_keywords cat raw).2, r.name = n := by
  rw [sync_keywords_assoc]
  by_cases hex : n ∈ (kwMatching cat raw).map (fun r => r.name)
  · rcases List.mem_map.mp hex with ⟨row, hrow, hname⟩
    exact ⟨row, List.mem_append_left _ hrow, hname⟩
  · have hf : n ∈ kwFresh cat raw := by
      rw [kwFresh, List.mem_filter]
      exact ⟨hn, by simpa using hex⟩
    have hmem : n ∈ (newKeywordRows cat.nextKeywordId (kwFresh cat raw)).map
        (fun r => r.name) := by
      rw [newKeywordRows_names]
      exact hf
    rcases List.mem_map.mp hmem with ⟨row, hrow, hname⟩
    exact ⟨row, List.mem_append_right _ hrow, hname⟩

theorem newAuthorRowsFor_names (s : Nat) (its : List AuthorIn) :
    (newAuthorRowsFor s its).map (fun rb => rb.1.name) =
      its.map (fun it => it.name) := by
  induction its generalizing s with
  | nil => rfl
  | cons it rest ih => simp [newAuthorRowsFor, ih]

theorem createAuthors_name_mem (s : Nat) (fresh : List String)
    (items : List AuthorIn) (rb : AuthorRow × Bool)
    (h : rb ∈ createAuthors s fresh items) : rb.1.name ∈ fresh := by
  induction fresh generalizing s with
  | nil => simp [createAuthors] at h
  | cons n rest ih =>
      simp only [createAuthors] at h
      rcases List.mem_append.mp h with h | h
      · have hmem : rb.1.name ∈ (items.filter (fun it => it.name = n)).map
            (fun it => it.name) := by
          rw [← newAuthorRowsFor_names s]
          exact List.mem_map.mpr ⟨rb, h, rfl⟩
        rcases List.mem_map.mp hmem with ⟨it, hit, hname⟩
        have hn : it.name = n := by simpa using (List.mem_filter.mp hit).2
        rw [← hname, hn]
        exact List.mem_cons_self _ _
      · exact List.mem_cons_of_mem _ (ih _ h)

theorem createAuthors_exists (s : Nat) (fresh : List String)
    (items : List AuthorIn) (n : String) (hn : n ∈ fresh)
    (hit : ∃ it ∈ items, it.name = n) :
    ∃ rb ∈ createAuthors s fresh items, rb.1.name = n := by
  induction fresh generalizing s with
  | nil => cases hn
  | cons m rest ih =>
      simp only [createAuthors]
      rcases List.mem_cons.mp hn with rfl | hn'
      · obtain ⟨it, hmem, hname⟩ := hit
        have hfil : it ∈ items.filter (fun i => i.name = n) :=
          List.mem_filter.mpr ⟨hmem, by simp [hname]⟩
        have hmm : n ∈ (newAuthorRowsFor s (items.filter (fun i => i.name = n))).map
            (fun rb => rb.1.name) := by
          rw [newAuthorRowsFor_names]
          exact List.mem_map.mpr ⟨it, hfil, hname⟩
        rcases List.mem_map.mp hmm with ⟨rb, hrb, hname2⟩
        exact ⟨rb, List.mem_append_left _ hrb, hname2⟩
      · obtain ⟨rb, hrb, hname⟩ := ih _ hn'
        exact ⟨rb, List.mem_append_right _ hrb, hname⟩

theorem sync_authors_some (cat : Catalog) (as : List AuthorIn)
    (cat' : Catalog) (assoc : List (AuthorRow × Bool))
    (h : sync_authors cat as = some (cat', assoc)) :
    cat'.authors = cat.authors ++ (auCreated cat as).map (fun rb => rb.1) ∧
    cat'.keywords = cat.keywords ∧
    assoc = auAssocExisting cat as ++ auCreated cat as ∧
    ((auCreated cat as).map (fun rb => rb.1.name)).Nodup ∧
    ∀ rb ∈ auCreated cat as,
      rb.1.name ∉ cat.authors.map (fun row => row.name) := by
  rw [sync_authors] at h
  split at h
  · next hc =>
      rw [Option.some.injEq, Prod.mk.injEq] at h
      obtain ⟨hcat, hassoc⟩ := h
      subst hcat
      subst hassoc
      exact ⟨rfl, rfl, rfl, hc.1, hc.2⟩
  · exact absurd h (by simp)

theorem sync_authors_nodup (cat : Catalog) (as : List AuthorIn)
    (cat' : Catalog) (assoc : List (AuthorRow × Bool))
    (hu : (cat.authors.map (fun r => r.name)).Nodup)
    (h : sync_authors cat as = some (cat', assoc)) :
    (cat'.authors.map (fun r => r.name)).Nodup := by
  obtain ⟨ha, _, _, hnd, hdisj⟩ := sync_authors_some cat as cat' assoc h
  rw [ha, List.map_append, List.nodup_append]
  refine ⟨hu, ?_, ?_⟩
  · rw [List.map_map]
    exact hnd
  · intro a hmem1 hmem2
    rw [List.map_map] at hmem2
    rcases List.mem_map.mp hmem2 with ⟨rb, hrb, hname⟩
    have hname' : rb.1.name = a := hname
    exact hdisj rb hrb (hname' ▸ hmem1)

theorem sync_authors_catalog_sub (cat : Catalog) (as : List AuthorIn)
    (cat' : Catalog) (assoc : List (AuthorRow × Bool))
    (h : sync_authors cat as = some (cat', assoc)) :
    ∀ r ∈ cat.authors, r ∈ cat'.authors := by
  obtain ⟨ha, _, _, _, _⟩ := sync_authors_some cat as cat' assoc h
  intro r hr
  rw [ha]
  exact List.mem_append_left _ hr

theorem sync_authors_assoc_sub (cat : Catalog) (as : List AuthorIn)
    (cat' : Catalog) (assoc : List (AuthorRow × Bool))
    (h : sync_authors cat as = some (cat', assoc)) :
    ∀ rb ∈ assoc, rb.1 ∈ cat'.authors := by
  obtain ⟨ha, _, hassoc, _, _⟩ := sync_authors_some cat as cat' assoc h
  intro rb hrb
  rw [hassoc] at hrb
  rw [ha]
  rcases List.mem_append.mp hrb with hmem | hmem
  · rw [auAssocExisting] at hmem
    rcases List.mem_flatMap.mp hmem with ⟨row, hrow, hmm⟩
    rcases List.mem_map.mp hmm with ⟨it, _, heq⟩
    have hfst : rb.1 = row := by rw [← heq]
    rw [hfst]
    exact List.mem_append_left _ (List.mem_of_mem_filter hrow)
  · exact List.mem_append_right _ (List.mem_map.mpr ⟨rb, hmem, rfl⟩)

theorem sync_authors_assoc_exists (cat : Catalog) (as : List AuthorIn)
    (cat' : Catalog) (assoc : List (AuthorRow × Bool))
    (h : sync_authors cat as = some (cat', assoc))
    (m : String) (hm : m ∈ as.map (fun it => it.name)) :
    ∃ r f, (r, f) ∈ assoc ∧ r.name = m := by
  obtain ⟨_, _, hassoc, _, _⟩ := sync_authors_some cat as cat' assoc h
  subst hassoc
  rcases List.mem_map.mp hm with ⟨it, hit, hitname⟩
  by_cases hex : m ∈ (auMatching cat as).map (fun r => r.name)
  · rcases List.mem_map.mp hex with ⟨row, hrow, hname⟩
    have hfil : it ∈ as.filter (fun i => i.name = row.name) :=
      List.mem_filter.mpr ⟨hit, by simp [hitname, hname]⟩
    refine ⟨row, it.maintainer, List.mem_append_left _ ?_, hname⟩
    rw [auAssocExisting]
    exact List.mem_flatMap.mpr ⟨row, hrow, List.mem_map.mpr ⟨it, hfil, rfl⟩⟩
  · have hf : m ∈ auFreshNames cat as := by
      rw [auFreshNames, List.mem_filter]
      exact ⟨(mem_dedup _ _).mpr hm, by simpa using hex⟩
    obtain ⟨rb, hrb, hname⟩ :=
      createAuthors_exists cat.nextAuthorId (auFreshNames cat as) as m hf
        ⟨it, hit, hitname⟩
    exact ⟨rb.1, rb.2, List.mem_append_right _ hrb, hname⟩

/-- Any two rows with the same name coincide in a table whose name column is
duplicate-free. -/
theorem rows_name_unique {α : Type} {rows : List α} {f : α → String}
    (hu : (rows.map f).Nodup) {r1 r2 : α} (h1 : r1 ∈ rows) (h2 : r2 ∈ rows)
    (he : f r1 = f r2) : r1 = r2 :=
  List.inj_on_of_nodup_map hu h1 h2 he

/-- C8: for two libraries synchronized in sequence against the same catalog —
each sync being a keyword pass and an author pass that commits — and any
keyword `n` or author name `m` referenced by both, the synchronizer
associates both libraries with one and the same global row: it looks the row
up by name and creates one only when none exists, keyword lists are
deduplicated by `_cleanup_keywords`, and the UNIQUE constraints on
`Keywords.name`/`Authors.name` (models.py) make any duplicate insert fail the
transaction, so a duplicate row is never committed and both tables keep
duplicate-free name columns. -/
theorem C8_shared_vocabulary_rows
    (cat0 : Catalog) (raw1 raw2 : List String) (as1 as2 : List AuthorIn)
    (n m : String) (cat1 cat2 cat3 cat4 : Catalog)
    (a1 a2 : List KeywordRow) (b1 b2 : List (AuthorRow × Bool))
    (hkw : (cat0.keywords.map (fun r => r.name)).Nodup)
    (hau : (cat0.authors.map (fun r => r.name)).Nodup)
    (hn1 : n ∈ cleanup_keywords raw1) (hn2 : n ∈ cleanup_keywords raw2)
    (hm1 : m ∈ as1.map (fun it => it.name))
    (hm2 : m ∈ as2.map (fun it => it.name))
    (h1 : sync_keywords cat0 raw1 = (cat1, a1))
    (h2 : sync_authors cat1 as1 = some (cat2, b1))
    (h3 : sync_keywords cat2 raw2 = (cat3, a2))
    (h4 : sync_authors cat3 as2 = some (cat4, b2)) :
    ((cat4.keywords.map (fun r => r.name)).Nodup ∧
     (cat4.authors.map (fun r => r.name)).Nodup) ∧
    (∃ r, r ∈ a1 ∧ r ∈ a2 ∧ r.name = n ∧
      ∀ r', (r' ∈ a1 ∨ r' ∈ a2) → r'.name = n → r' = r) ∧
    (∃ r, (∃ f1, (r, f1) ∈ b1) ∧ (∃ f2, (r, f2) ∈ b2) ∧ r.name = m ∧
      ∀ r' f', ((r', f') ∈ b1 ∨ (r', f') ∈ b2) → r'.name = m → r' = r) := by
  rw [Prod.ext_iff] at h1 h3
  obtain ⟨hc1, ha1⟩ := h1
  obtain ⟨hc3, ha3⟩ := h3
  subst hc1
  subst ha1
  subst hc3
  subst ha3
  obtain ⟨hau2eq, hkw2eq, hb1, _, _⟩ := sync_authors_some _ as1 cat2 b1 h2
  obtain ⟨hau4eq, hkw4eq, hb2, _, _⟩ := sync_authors_some _ as2 cat4 b2 h4
  have hkw1 : (((sync_keywords cat0 raw1).1).keywords.map (fun r => r.name)).Nodup :=
    sync_keywords_nodup cat0 raw1 hkw
  have hau1 : (((sync_keywords cat0 raw1).1).authors.map (fun r => r.name)).Nodup := by
    rw [sync_keywords_authors]
    exact hau
  have hau2 : (cat2.authors.map (fun r => r.name)).Nodup :=
    sync_authors_nodup _ as1 cat2 b1 hau1 h2
  have hkw2 : (cat2.keywords.map (fun r => r.name)).Nodup := by
    rw [hkw2eq]
    exact hkw1
  have hkw3 : (((sync_keywords cat2 raw2).1).keywords.map (fun r => r.name)).Nodup :=
    sync_keywords_nodup cat2 raw2 hkw2
  have hau3 : (((sync_keywords cat2 raw2).1).authors.map (fun r => r.name)).Nodup := by
    rw [sync_keywords_authors]
    exact hau2
  have hau4 : (cat4.authors.map (fun r => r.name)).Nodup :=
    sync_authors_nodup _ as2 cat4 b2 hau3 h4
  have hkw4 : (cat4.keywords.map (fun r => r.name)).Nodup := by
    rw [hkw4eq]
    exact hkw3
  have hmemA1 : ∀ r ∈ (sync_keywords cat0 raw1).2, r ∈ cat4.keywords := by
    intro r hr
    have hx := sync_keywords_assoc_sub cat0 raw1 r hr
    have hy : r ∈ cat2.keywords := by
      rw [hkw2eq]
      exact hx
    have hz := sync_keywords_catalog_sub cat2 raw2 r hy
    rw [hkw4eq]
    exact hz
  have hmemA2 : ∀ r ∈ (sync_keywords cat2 raw2).2, r ∈ cat4.keywords := by
    intro r hr
    have hx := sync_keywords_assoc_sub cat2 raw2 r hr
    rw [hkw4eq]
    exact hx
  have hmemB1 : ∀ rb ∈ b1, rb.1 ∈ cat4.authors := by
    intro rb hrb
    have hx := sync_authors_assoc_sub _ as1 cat2 b1 h2 rb hrb
    have hy : rb.1 ∈ (sync_keywords cat2 raw2).1.authors := by
      rw [sync_keywords_authors]
      exact hx
    exact sync_authors_catalog_sub _ as2 cat4 b2 h4 _ hy
  have hmemB2 : ∀ rb ∈ b2, rb.1 ∈ cat4.authors :=
    fun rb hrb => sync_authors_assoc_sub _ as2 cat4 b2 h4 rb hrb
  obtain ⟨r1, hr1, hr1n⟩ := sync_keywords_assoc_exists cat0 raw1 n hn1
  obtain ⟨r2, hr2, hr2n⟩ := sync_keywords_assoc_exists cat2 raw2 n hn2
  have hr12 : r1 = r2 :=
    rows_name_unique hkw4 (hmemA1 r1 hr1) (hmemA2 r2 hr2) (by rw [hr1n, hr2n])
  obtain ⟨s1, f1, hs1, hs1n⟩ := sync_authors_assoc_exists _ as1 cat2 b1 h2 m hm1
  obtain ⟨s2, f2, hs2, hs2n⟩ := sync_authors_assoc_exists _ as2 cat4 b2 h4 m hm2
  have hs12 : s1 = s2 :=
    rows_name_unique hau4 (hmemB1 (s1, f1) hs1) (hmemB2 (s2, f2) hs2)
      (by rw [hs1n, hs2n])
  refine ⟨⟨hkw4, hau4⟩,
    ⟨r1, hr1, by rw [hr12]; exact hr2, hr1n, ?_⟩,
    ⟨s1, ⟨f1, hs1⟩, ⟨f2, by rw [hs12]; exact hs2⟩, hs1n, ?_⟩⟩
  · intro r' hr' hr'n
    rcases hr' with hx | hx
    · exact rows_name_unique hkw4 (hmemA1 r' hx) (hmemA1 r1 hr1)
        (by rw [hr'n, hr1n])
    · exact rows_name_unique hkw4 (hmemA2 r' hx) (hmemA1 r1 hr1)
        (by rw [hr'n, hr1n])
  · intro r' f' hr' hr'n
    rcases hr' with hx | hx
    · exact rows_name_unique hau4 (hmemB1 (r', f') hx) (hmemB1 (s1, f1) hs1)
        (by rw [hr'n, hs1n])
    · exact rows_name_unique hau4 (hmemB2 (r', f') hx) (hmemB1 (s1, f1) hs1)
        (by rw [hr'n, hs1n])

/-- Witness for C8: two libraries both referencing keyword `led` and author
`Ann`, synchronized in sequence against an initially empty catalog; both end
up attached to the single created row of each vocabulary. -/
theorem C8_witness :
    (((⟨[⟨1, "led"⟩], [⟨1, "Ann", none, none⟩], 2, 2⟩ : Catalog).keywords.map
        (fun r => r.name)).Nodup ∧
     ((⟨[⟨1, "led"⟩], [⟨1, "Ann", none, none⟩], 2, 2⟩ : Catalog).authors.map
        (fun r => r.name)).Nodup) ∧
    (∃ r, r ∈ [(⟨1, "led"⟩ : KeywordRow)] ∧ r ∈ [(⟨1, "led"⟩ : KeywordRow)] ∧
      r.name = "led" ∧
      ∀ r', (r' ∈ [(⟨1, "led"⟩ : KeywordRow)] ∨ r' ∈ [(⟨1, "led"⟩ : KeywordRow)]) →
        r'.name = "led" → r' = r) ∧
    (∃ r, (∃ f1, (r, f1) ∈ [((⟨1, "Ann", none, none⟩ : AuthorRow), false)]) ∧
      (∃ f2, (r, f2) ∈ [((⟨1, "Ann", none, none⟩ : AuthorRow), false)]) ∧
      r.name = "Ann" ∧
      ∀ r' f', ((r', f') ∈ [((⟨1, "Ann", none, none⟩ : AuthorRow), false)] ∨
          (r', f') ∈ [((⟨1, "Ann", none, none⟩ : AuthorRow), false)]) →
        r'.name = "Ann" → r' = r) :=
  C8_shared_vocabulary_rows ⟨[], [], 1, 1⟩ ["led"] ["led"]
    [⟨"Ann", none, none, false⟩] [⟨"Ann", none, none, false⟩] "led" "Ann"
    ⟨[⟨1, "led"⟩], [], 2, 1⟩ ⟨[⟨1, "led"⟩], [⟨1, "Ann", none, none⟩], 2, 2⟩
    ⟨[⟨1, "led"⟩], [⟨1, "Ann", none, none⟩], 2, 2⟩
    ⟨[⟨1, "led"⟩], [⟨1, "Ann", none, none⟩], 2, 2⟩
    [⟨1, "led"⟩] [⟨1, "led"⟩]
    [(⟨1, "Ann", none, none⟩, false)] [(⟨1, "Ann", none, none⟩, false)]
    (by decide) (by decide) (by decide) (by decide) (by decide) (by decide)
    (by decide) (by decide) (by decide) (by decide)

/-! ## `LibSyncerBase.sync` and `sync_version` (crawler.py) -/

/-- The manifest configuration as `sync` sees it: the `version` entry is
tracked apart (the only key `sync` writes before re-hashing), the rest of the
parsed manifest is the body. -/
structure SyncConfig where
  version : Option String
  body : List (String × JVal)

/-- The `Libs` aggregate as `sync` touches it: content hash (NULL before the
first sync), update stamp, latest-version pointer, the `LibVersions` rows
`(id, name)` with the id the database hands to the next insert, and the
vocabulary associations rebuilt by the metadata synchronizer. -/
structure LibState where
  id : Nat
  conf_sha1 : Option String
  updated : Int
  latest_version_id : Option Nat
  versions : List (Nat × String)
  nextVersionId : Nat
  keywordsAssoc : List KeywordRow
  authorsAssoc : List (AuthorRow × Bool)

/-- `sync_version` (crawler.py): looks up the `(lib_id, name)` row; when none
exists a `LibVersions` row is appended and flushed, obtaining its id.
Returns the id together with the possibly extended library row. -/
def sync_version (lib : LibState) (v : VersionInfo) : Nat × LibState :=
  match lib.versions.find? (fun p => p.2 = v.name) with
  | some p => (p.1, lib)
  | none =>
      (lib.nextVersionId,
       { lib with
           versions := lib.versions ++ [(lib.nextVersionId, v.name)],
           nextVersionId := lib.nextVersionId + 1 })

/-- `LibSyncerBase.sync` (crawler.py).  The parameters abstract the process
world: `h` is `calc_config_sha1` — the sha1 of the sorted-keys JSON dump of
the config, uninterpreted here; `commit` is the VCS client's
`get_last_commit` result (`none` without a client); `authorsIn`/`keywordsIn`
are the normalized author and keyword inputs the metadata synchronizer
receives; `filesOk` says whether the asserted
export/headers/examples/archive steps succeed (their effects live on the
file system).  The attribute/framework/platform/FTS rewrites follow the same
pattern as the modelled vocabulary passes and equally sit on the
out-of-date path only.  A raise anywhere makes the whole transaction roll
back, so a raising run is `none`; otherwise the flag returned by `sync` is
paired with the final config, library row and catalog. -/
def sync (h : SyncConfig → String) (commit : Option CommitInfo)
    (authorsIn : List AuthorIn) (keywordsIn : List String) (filesOk : Bool)
    (now : Int) (cfg : SyncConfig) (lib : LibState) (cat : Catalog) :
    Option (Bool × SyncConfig × LibState × Catalog) :=
  if cfg.version.isSome ∧ lib.conf_sha1 = some (h cfg) then
    some (true, cfg, lib, cat)
  else
    match get_version cfg.version commit now with
    | none => none
    | some v =>
        let cfg' := { cfg with version := some v.name }
        if lib.conf_sha1 = some (h cfg') then some (true, cfg', lib, cat)
        else
          let lib1 := { lib with conf_sha1 := some (h cfg'), updated := now }
          let vres := sync_version lib1 v
          let lib2 := { vres.2 with latest_version_id := some vres.1 }
          match sync_authors cat authorsIn with
          | none => none
          | some (cat1, aAssoc) =>
              let kres := sync_keywords cat1 keywordsIn
              let lib3 := { lib2 with
                              authorsAssoc := aAssoc,
                              keywordsAssoc := kres.2 }
              if filesOk then some (true, cfg', lib3, kres.1) else none

/-- C1: when the stored `conf_sha1` equals the hash of the freshly normalized
configuration with the version field filled in, `sync` returns True without
creating a `LibVersions` row and without touching `conf_sha1`, `updated`,
`latest_version_id` or the vocabulary associations — the library row and the
catalog come back unchanged; and a second run over the unchanged manifest (at
any later time) again returns True with the same untouched state, so running
sync twice equals running it once. -/
theorem C1_sync_unchanged_manifest (h : SyncConfig → String)
    (commit : Option CommitInfo) (authorsIn : List AuthorIn)
    (keywordsIn : List String) (filesOk : Bool) (now now2 : Int)
    (cfg : SyncConfig) (lib : LibState) (cat : Catalog) (v : VersionInfo)
    (hv : get_version cfg.version commit now = some v)
    (hsha : lib.conf_sha1 = some (h { cfg with version := some v.name })) :
    (∃ cfg1, sync h commit authorsIn keywordsIn filesOk now cfg lib cat =
        some (true, cfg1, lib, cat)) ∧
    (∃ cfg2, sync h commit authorsIn keywordsIn filesOk now2 cfg lib cat =
        some (true, cfg2, lib, cat)) := by
  have hname : versionNameOk (resolvedVersionName cfg.version commit) = true ∧
      resolvedVersionName cfg.version commit = v.name := by
    unfold get_version at hv
    split at hv
    · next hok =>
        refine ⟨hok, ?_⟩
        rw [Option.some.injEq] at hv
        rw [← hv]
    · cases hv
  have hrun : ∀ t, ∃ cfg', sync h commit authorsIn keywordsIn filesOk t cfg lib cat =
      some (true, cfg', lib, cat) := by
    intro t
    unfold sync
    by_cases h1 : cfg.version.isSome ∧ lib.conf_sha1 = some (h cfg)
    · rw [if_pos h1]
      exact ⟨cfg, rfl⟩
    · rw [if_neg h1]
      have hv' : get_version cfg.version commit t =
          some ⟨v.name, resolvedVersionDate commit t⟩ := by
        unfold get_version
        rw [if_pos hname.1, hname.2]
      rw [hv']
      dsimp only
      rw [if_pos hsha]
      exact ⟨_, rfl⟩
  exact ⟨hrun now, hrun now2⟩

/-- Witness for C1: a manifest whose version `1.0` is already recorded under
the stored hash; both runs of `sync` return True and leave the library row
and the catalog untouched. -/
theorem C1_witness :
    (∃ cfg1, sync (fun _ => "x") none [] [] true 5
        ⟨some "1.0", []⟩ ⟨1, some "x", 0, none, [], 1, [], []⟩ ⟨[], [], 1, 1⟩ =
        some (true, cfg1, ⟨1, some "x", 0, none, [], 1, [], []⟩, ⟨[], [], 1, 1⟩)) ∧
    (∃ cfg2, sync (fun _ => "x") none [] [] true 9
        ⟨some "1.0", []⟩ ⟨1, some "x", 0, none, [], 1, [], []⟩ ⟨[], [], 1, 1⟩ =
        some (true, cfg2, ⟨1, some "x", 0, none, [], 1, [], []⟩, ⟨[], [], 1, 1⟩)) :=
  C1_sync_unchanged_manifest (fun _ => "x") none [] [] true 5 9
    ⟨some "1.0", []⟩ ⟨1, some "x", 0, none, [], 1, [], []⟩ ⟨[], [], 1, 1⟩
    ⟨"1.0", 5⟩ (by decide) rfl

end PioAPI
